import Mathlib

/-!
Verification of the callback-packaging and dependency-closure subsystem of
the pulumi-azure-serverless repository.

The definitions below are a shallow embedding of the TypeScript source:

* `nodejs/azure-serverless/subscription.ts` — the dependency-closure
  resolver (`allFoldersForPackages`, `addPackageAndDependenciesToSet`,
  `findDependency`), the asset-map construction in `serializeCallback`,
  and the `EventSubscription` app-settings construction;
* `nodejs/azure-serverless/storage/account.ts` and the `util.ts` variant
  appended to it — `signedBlobReadUrl` (account-SAS based) and
  `onBlobEvent`'s trigger-path computation;
* `nodejs/azure-serverless/functionApp.ts` — the blob-service based
  `signedBlobReadUrl`;
* the unnamed revision (`src/unnamed/part_001`) of `subscription.ts` —
  the `func` / `factoryFunc` validation in `serializeCallback`.

JavaScript `Set<string>` values are modelled as insertion-ordered
duplicate-free `List String`; JavaScript object literals used as string
maps are modelled as insertion-ordered association lists with
assignment-overwrites-in-place semantics.  Recursion of the resolver is
modelled with an explicit recursion-depth bound (`fuel`): the real code
has no such bound, so "the call terminates" is rendered as "some finite
depth bound suffices", and a computation that yields `none` at every
depth bound is one that never terminates.
-/

/-- Insertion into a JavaScript `Set<string>`: a no-op when the element is
already present, otherwise appended at the end (JS sets iterate in
insertion order).  Models `Set.prototype.add`. -/
def setAdd (l : List String) (x : String) : List String :=
  if l.contains x then l else l ++ [x]

/-- Repeated `setAdd`, used to model constructing a JS `Set` from an
iterable and adding further elements to it. -/
def setAddAll (l : List String) (xs : List String) : List String :=
  xs.foldl setAdd l

/-- Split a character list at every `/`, keeping empty components, as
`String.prototype.split("/")` does. -/
def splitSlash : List Char → List (List Char)
  | [] => [[]]
  | c :: cs =>
    match splitSlash cs with
    | [] => [[c]]
    | p :: ps => if c = '/' then [] :: p :: ps else (c :: p) :: ps

/-- Components of a forward-slash path.  Models how Node's `path` module
decomposes the slash-normalized relative paths that occur in a package
tree. -/
def splitPath (s : String) : List String :=
  (splitSlash s.data).map String.mk

/-- Node `path.basename` on a slash-normalized path without a trailing
slash: the last `/`-separated component. -/
def basename (s : String) : String :=
  (splitPath s).getLastD ""

/-- Node `path.dirname` on a slash-normalized path without a trailing
slash: everything before the last component, `"."` when there is no
separator. -/
def dirname (s : String) : String :=
  let parts := splitPath s
  if parts.length ≤ 1 then "." else String.intercalate "/" parts.dropLast

/-- JavaScript `String.prototype.startsWith`: the second string is a
prefix of the first. -/
def jsStartsWith (s pre : String) : Bool :=
  pre.data.isPrefixOf s.data

/-- The fields of one node of the tree returned by `read-package-tree`
that the resolver reads, plus the `devDependencies` / `peerDependencies`
declarations of its `package.json` (present on disk, never read by the
resolver).  `dependencies` lists the keys of the node's
`package.dependencies` object in declaration order. -/
structure PkgInfo where
  name : String
  path : String
  dependencies : List String
  devDependencies : List String
  peerDependencies : List String
deriving DecidableEq, Repr

/-- A node of the `read-package-tree` result: its own metadata plus the
ordered `children` array.  The `parent` back-reference of the source is
represented positionally (a node is addressed by its index path from the
root, and its parent is that path minus the last index). -/
inductive PkgTree where
  | node : PkgInfo → List PkgTree → PkgTree

/-- Metadata of a tree node. -/
def PkgTree.info : PkgTree → PkgInfo
  | .node i _ => i

/-- Children array of a tree node. -/
def PkgTree.children : PkgTree → List PkgTree
  | .node _ cs => cs

/-- The subtree at an index path, if the path is valid. -/
def getNode : List Nat → PkgTree → Option PkgTree
  | [], t => some t
  | i :: rest, .node _ cs =>
    match cs[i]? with
    | some c => getNode rest c
    | none => none

/-- The chain of positions walked by `findDependency`'s
`for (; root; root = root.parent)` loop, starting at the node addressed
by `pos` and ending at the tree root `[]`. -/
def ancestorsOf (pos : List Nat) : List (List Nat) :=
  ((List.range (pos.length + 1)).reverse).map (fun k => pos.take k)

/-- The effective name `findDependency` compares against: normally the
node's stored `name`, but for a node whose parent folder starts with `@`
(a scoped package) the name is recomputed as
`join(basename(dirname(path)), basename(path))`, because
`read-package-tree` stores incorrect names for scoped packages. -/
def childNameOf (child : PkgInfo) : String :=
  let childFolderName := basename child.path
  let parentFolderName := basename (dirname child.path)
  if jsStartsWith parentFolderName "@" then
    parentFolderName ++ "/" ++ childFolderName
  else
    child.name

/-- The `for (const child of root.children)` scan of `findDependency`:
return the first child (with its index) whose effective name matches. -/
def findChildIdx (name : String) : Nat → List PkgTree → Option (Nat × PkgTree)
  | _, [] => none
  | i, c :: cs =>
    if childNameOf c.info == name then some (i, c) else findChildIdx name (i + 1) cs

/-- One step of `findDependency`'s ancestor walk: scan the given
ancestor positions in order; at each, scan that node's `children` for a
child whose effective name matches, returning the matched child and its
position. -/
def findDependencyAux (tree : PkgTree) (name : String) : List (List Nat) → Option (List Nat × PkgTree)
  | [] => none
  | a :: rest =>
    match getNode a tree with
    | some n =>
      match findChildIdx name 0 n.children with
      | some (i, c) => some (a ++ [i], c)
      | none => findDependencyAux tree name rest
    | none => findDependencyAux tree name rest

/-- Model of `findDependency` of `subscription.ts`: starting from the node at
`pos`, search that node's children, then its parent's children, and so
on up to the root, for a child whose effective name is `name`. -/
def findDependency (tree : PkgTree) (pos : List Nat) (name : String) : Option (List Nat × PkgTree) :=
  findDependencyAux tree name (ancestorsOf pos)

/-- Accumulator state of the resolver: the path set being built (in
insertion order) and the warnings emitted so far (recorded as the names
of the dependencies that could not be located). -/
abbrev ResolveState := List String × List String

/-- The `for (const dep of Object.keys(child.package.dependencies))`
loop of `addPackageAndDependenciesToSet`: process the dependency names
in order with the given recursive call, threading the accumulator and
propagating depth-bound exhaustion. -/
def depLoop (rec : List Nat → String → ResolveState → Option ResolveState) :
    List Nat → List String → ResolveState → Option ResolveState
  | _, [], st => some st
  | pos, d :: ds, st =>
    match rec pos d st with
    | none => none
    | some st' => depLoop rec pos ds st'

/-- One unfolding of `addPackageAndDependenciesToSet` of
`subscription.ts`, parameterized by the recursive call used for the
dependencies of the found package: skip `pkg` when excluded or
`@pulumi`-scoped; look it up with `findDependency` from the node at
`pos`; on failure warn (recording the missing name) and skip; on
success add the found node's `path` to the set and process its declared
dependencies from the found node's position. -/
def addPackageStep (tree : PkgTree) (excludedPackages : List String)
    (rec : List Nat → String → ResolveState → Option ResolveState)
    (pos : List Nat) (pkg : String) (st : ResolveState) : Option ResolveState :=
  if excludedPackages.contains pkg || jsStartsWith pkg "@pulumi" then
    some st
  else
    match findDependency tree pos pkg with
    | none => some (st.1, st.2 ++ [pkg])
    | some (childPos, child) =>
      depLoop rec childPos child.info.dependencies (setAdd st.1 child.info.path, st.2)

/-- Model of `addPackageAndDependenciesToSet` of `subscription.ts`, with an
explicit recursion-depth bound `fuel` (the source has none; the loop
over a package's dependencies does not consume depth, only the recursive
descent does).  `none` means the depth bound was exceeded; because the
source is unbounded, "the call returns" is modelled as "some finite
depth bound yields `some`". -/
def addPackageAndDependenciesToSet (tree : PkgTree) (excludedPackages : List String) :
    Nat → List Nat → String → ResolveState → Option ResolveState
  | 0 => fun _ _ _ => none
  | Nat.succ fuel =>
    addPackageStep tree excludedPackages
      (addPackageAndDependenciesToSet tree excludedPackages fuel)

/-- The dependency loop at a given depth bound. -/
def addDependencyList (tree : PkgTree) (excludedPackages : List String) (fuel : Nat) :
    List Nat → List String → ResolveState → Option ResolveState :=
  depLoop (addPackageAndDependenciesToSet tree excludedPackages fuel)

/-- The seed set of `allFoldersForPackages`:
`new Set(includedPackages)` followed by adding every key of the root
`package.dependencies` (never `devDependencies` or
`peerDependencies`). -/
def referencedPackages (root : PkgInfo) (includedPackages : List String) : List String :=
  setAddAll (setAddAll [] includedPackages) root.dependencies

/-- Model of `allFoldersForPackages` of `subscription.ts`.  The
`readPackageTree` callback result is passed in as an `Except`: an error
rejects the whole promise unchanged; otherwise the seed names are
resolved in order starting from an empty path set.  The inner `Option`
is the recursion-depth bound of the model: `some` holds the resolved
path set and the warnings. -/
def allFoldersForPackages (fuel : Nat) (readResult : Except String PkgTree)
    (includedPackages excludedPackages : List String) : Except String (Option ResolveState) :=
  match readResult with
  | .error e => .error e
  | .ok tree =>
    .ok (addDependencyList tree excludedPackages fuel []
      (referencedPackages tree.info includedPackages) ([], []))

/-- Resolution terminates on the given inputs when some finite
recursion-depth bound suffices for it to return a result. -/
def ResolutionTerminates (tree : PkgTree) (includedPackages excludedPackages : List String) : Prop :=
  ∃ fuel st, allFoldersForPackages fuel (.ok tree) includedPackages excludedPackages = .ok (some st)

/-- The tree with the root node's `devDependencies` and
`peerDependencies` declarations replaced; children are untouched.  Used
to state that the resolver never reads those declarations. -/
def withRootDevPeer : PkgTree → List String → List String → PkgTree
  | .node i cs, dd, pd =>
    .node { i with devDependencies := dd, peerDependencies := pd } cs

mutual

/-- Every node's metadata in the tree, root first. -/
def allNodes : PkgTree → List PkgInfo
  | .node i cs => i :: allNodesList cs

/-- Every node's metadata in a forest, in order. -/
def allNodesList : List PkgTree → List PkgInfo
  | [] => []
  | t :: ts => allNodes t ++ allNodesList ts

end

/-- Permission flags of the account-SAS request built by
`signedBlobReadUrl` in `util.ts` (the revision appended to
`storage/account.ts`). -/
structure SASPermissions where
  read : Bool
  write : Bool
  create : Bool
  add : Bool
  «list» : Bool
  delete : Bool
  update : Bool
  process : Bool
deriving DecidableEq, Repr

/-- Service flags of the account-SAS request. -/
structure SASServices where
  blob : Bool
  file : Bool
  queue : Bool
  table : Bool
deriving DecidableEq, Repr

/-- Resource-type flags of the account-SAS request. -/
structure SASResourceTypes where
  object : Bool
  container : Bool
  service : Bool
deriving DecidableEq, Repr

/-- The argument record passed to `azure.storage.getAccountSAS`. -/
structure AccountSASRequest where
  connectionString : String
  start : String
  expiry : String
  permissions : SASPermissions
  services : SASServices
  resourceTypes : SASResourceTypes
deriving DecidableEq, Repr

/-- Value of `new Date(0).toISOString()`: the fixed signature start instant. -/
def signatureStartISO : String := "1970-01-01T00:00:00.000Z"

/-- Value of `new Date(2100, 1).toISOString()` in a UTC environment: the fixed
far-future signature expiry instant (February 1, 2100). -/
def signatureExpirationISO : String := "2100-02-01T00:00:00.000Z"

/-- The `getAccountSAS` request that `signedBlobReadUrl` (`util.ts`
revision) constructs: fixed start and expiry instants, read-only
permissions, blob service, object resource type. -/
def accountSASRequest (connectionString : String) : AccountSASRequest :=
  { connectionString := connectionString
    start := signatureStartISO
    expiry := signatureExpirationISO
    permissions :=
      { read := true, write := false, create := false, add := false
        «list» := false, delete := false, update := false, process := false }
    services := { blob := true, file := false, queue := false, table := false }
    resourceTypes := { object := true, container := false, service := false } }

/-- Model of `signedBlobReadUrl` of the `util.ts` revision: concatenate the blob
URL with the SAS returned by `azure.storage.getAccountSAS` (an external
deterministic signing routine, passed in as `getAccountSAS`).  The
`now` argument stands for the wall clock at the moment of invocation;
the source never consults it (it uses the fixed dates above). -/
def signedBlobReadUrl (getAccountSAS : AccountSASRequest → String) (now : String)
    (blobUrl connectionString : String) : String :=
  blobUrl ++ getAccountSAS (accountSASRequest connectionString)

/-- The shared-access policy passed to
`BlobService.generateSharedAccessSignature` by `signedBlobReadUrl` in
`functionApp.ts`: fixed expiry, permissions
`BlobUtilities.SharedAccessPermissions.READ` (the string `"r"`). -/
structure SharedAccessPolicy where
  expiry : String
  permissions : String
deriving DecidableEq, Repr

/-- The fixed access policy of `functionApp.ts`. -/
def blobSASPolicy : SharedAccessPolicy :=
  { expiry := signatureExpirationISO, permissions := "r" }

/-- Model of `signedBlobReadUrl` of `functionApp.ts`: generate a signature for
(container, blob) under the fixed read-only policy with the
connection-string-bound blob service, then form the URL.
`generateSAS` and `getUrl` stand for the external
`BlobService.generateSharedAccessSignature` and `BlobService.getUrl`
routines (deterministic functions of their arguments); `now` stands for
the wall clock, which the source never consults. -/
def signedBlobReadUrlFA
    (generateSAS : String → String → String → SharedAccessPolicy → String)
    (getUrl : String → String → String → String → String)
    (now : String) (connectionString containerName blobName : String) : String :=
  let signature := generateSAS connectionString containerName blobName blobSASPolicy
  getUrl connectionString containerName blobName signature

/-- JSON values as produced by the object literals the source passes to
`JSON.stringify`. -/
inductive Json where
  | str : String → Json
  | bool : Bool → Json
  | arr : List Json → Json
  | obj : List (String × Json) → Json

mutual

/-- Model of `JSON.stringify` for the strings occurring here (none of which need
character escaping): keys in object-literal insertion order, no
whitespace. -/
def Json.stringify : Json → String
  | .str s => "\"" ++ s ++ "\""
  | .bool b => if b then "true" else "false"
  | .arr xs => "[" ++ stringifyArr xs ++ "]"
  | .obj kvs => "\x7b" ++ stringifyObj kvs ++ "\x7d"

/-- Comma-separated stringification of a JSON array's elements. -/
def stringifyArr : List Json → String
  | [] => ""
  | [x] => Json.stringify x
  | x :: y :: xs => Json.stringify x ++ "," ++ stringifyArr (y :: xs)

/-- Comma-separated stringification of a JSON object's key/value pairs. -/
def stringifyObj : List (String × Json) → String
  | [] => ""
  | [(k, v)] => "\"" ++ k ++ "\":" ++ Json.stringify v
  | (k, v) :: p :: kvs =>
    "\"" ++ k ++ "\":" ++ Json.stringify v ++ "," ++ stringifyObj (p :: kvs)

end

/-- A `Binding` record as emitted into `function.json`
(`subscription.ts`): the three fields shared by all binding kinds. -/
structure Binding where
  type : String
  direction : String
  name : String
deriving DecidableEq, Repr

/-- The JSON object literal for one binding, fields in interface
declaration order. -/
def bindingJson (b : Binding) : Json :=
  .obj [("type", .str b.type), ("direction", .str b.direction), ("name", .str b.name)]

/-- The `host.json` object literal of `serializeCallback`
(`subscription.ts`): the fixed tracing-verbosity configuration. -/
def hostJson : Json :=
  .obj [("tracing", .obj [("consoleLevel", .str "verbose")])]

/-- The `function.json` object literal: `disabled: false` plus the
bindings array. -/
def functionJson (bindings : List Binding) : Json :=
  .obj [("disabled", .bool false), ("bindings", .arr (bindings.map bindingJson))]

/-- The `index.js` entry-point stub text. -/
def indexJsStub : String := "module.exports = require(\"./handler\").handler"

/-- One value of a `pulumi.asset.AssetMap`: an inline string asset, a
directory archive, or a single-file asset. -/
inductive Asset where
  | stringAsset : String → Asset
  | fileArchive : String → Asset
  | fileAsset : String → Asset
deriving DecidableEq, Repr

/-- A `pulumi.asset.AssetMap`: a JavaScript object used as a map,
modelled as an association list in property insertion order. -/
abbrev AssetMap := List (String × Asset)

/-- JavaScript property assignment `m[k] = v` on an object: overwrite in
place when the key exists, else append. -/
def objSet (m : AssetMap) (k : String) (v : Asset) : AssetMap :=
  if m.any (fun kv => kv.1 == k) then
    m.map (fun kv => if kv.1 == k then (k, v) else kv)
  else
    m ++ [(k, v)]

/-- Key lookup on an association-list object. -/
def objGet (m : AssetMap) (k : String) : Option Asset :=
  match m.find? (fun kv => kv.1 == k) with
  | some kv => some kv.2
  | none => none

/-- The keys of an association-list object, in order. -/
def objKeys (m : AssetMap) : List String :=
  m.map (fun kv => kv.1)

/-- The asset-map construction of `serializeCallback`
(`subscription.ts`), after the serialized handler text and the resolved
path set are available: `host.json`, `<name>/function.json`,
`<name>/index.js`, `<name>/handler.js`, then one entry per resolved
path, a `FileArchive` when `fs.lstatSync(path).isDirectory()` (the
`isDirectory` oracle) and a `FileAsset` otherwise. -/
def buildAssetMap (name : String) (bindings : List Binding) (serializedHandlerText : String)
    (pathSet : List String) (isDirectory : String → Bool) : AssetMap :=
  let m := objSet [] "host.json" (.stringAsset hostJson.stringify)
  let m := objSet m (name ++ "/function.json") (.stringAsset (functionJson bindings).stringify)
  let m := objSet m (name ++ "/index.js") (.stringAsset indexJsStub)
  let m := objSet m (name ++ "/handler.js") (.stringAsset serializedHandlerText)
  pathSet.foldl
    (fun m path =>
      objSet m (name ++ "/" ++ path)
        (if isDirectory path then .fileArchive path else .fileAsset path))
    m

/-- The asset map the claim describes: the four fixed entries followed by
one entry per included path, keyed `<name>/<path>`, a directory archive
exactly when the path stats as a directory. -/
def specAssetMap (name : String) (bindings : List Binding) (serializedHandlerText : String)
    (pathSet : List String) (isDirectory : String → Bool) : AssetMap :=
  [("host.json", .stringAsset hostJson.stringify),
   (name ++ "/function.json", .stringAsset (functionJson bindings).stringify),
   (name ++ "/index.js", .stringAsset indexJsStub),
   (name ++ "/handler.js", .stringAsset serializedHandlerText)] ++
  pathSet.map (fun path =>
    (name ++ "/" ++ path,
     if isDirectory path then Asset.fileArchive path else Asset.fileAsset path))

/-- The externally observable work `serializeCallback` of the unnamed
`subscription.ts` revision kicks off after its argument validation:
serializing the callback (`pulumi.runtime.serializeFunction`) and the
filesystem walk computing the code paths
(`pulumi.runtime.computeCodePaths`). -/
inductive PackagingStep where
  | serializeFunction
  | computeCodePaths
deriving DecidableEq, Repr

/-- The caller-configuration part of `EventSubscriptionArgs` that the
validation of `serializeCallback` inspects: whether `func` and
`factoryFunc` were supplied. -/
structure CallbackArgs where
  hasFunc : Bool
  hasFactoryFunc : Bool
deriving DecidableEq, Repr

/-- The `func` / `factoryFunc` validation at the top of
`serializeCallback` (unnamed `subscription.ts` revision): both supplied
or neither supplied is an error. -/
def validateCallbacks (args : CallbackArgs) : Except String Unit :=
  if args.hasFunc && args.hasFactoryFunc then
    .error "Cannot provide both [func] and [factoryFunc]"
  else if !args.hasFunc && !args.hasFactoryFunc then
    .error "Missing required function callback"
  else
    .ok ()

/-- Model of `serializeCallback` of the unnamed `subscription.ts` revision,
modelled as the list of filesystem/serialization steps it performs
together with its result: the validation throws before any step runs;
otherwise both serialization and the code-path walk are started and the
asset map is assembled (this revision inserts the precomputed asset
value for every computed code path). -/
def serializeCallback (args : CallbackArgs) (name : String) (bindings : List Binding)
    (serializedHandlerText : String) (codePaths : List (String × Asset)) :
    List PackagingStep × Except String AssetMap :=
  match validateCallbacks args with
  | .error e => ([], .error e)
  | .ok _ =>
    let m := objSet [] "host.json" (.stringAsset hostJson.stringify)
    let m := objSet m (name ++ "/function.json") (.stringAsset (functionJson bindings).stringify)
    let m := objSet m (name ++ "/index.js") (.stringAsset indexJsStub)
    let m := objSet m (name ++ "/handler.js") (.stringAsset serializedHandlerText)
    let m := codePaths.foldl (fun m pv => objSet m (name ++ "/" ++ pv.1) pv.2) m
    ([.serializeFunction, .computeCodePaths], .ok m)

/-- JavaScript property assignment on a string-valued settings object,
same semantics as `objSet`. -/
def settingsSet (m : List (String × String)) (k v : String) : List (String × String) :=
  if m.any (fun kv => kv.1 == k) then
    m.map (fun kv => if kv.1 == k then (k, v) else kv)
  else
    m ++ [(k, v)]

/-- Key lookup on a string-valued settings object. -/
def settingsGet (m : List (String × String)) (k : String) : Option String :=
  match m.find? (fun kv => kv.1 == k) with
  | some kv => some kv.2
  | none => none

/-- The keys of a settings object, in order. -/
def settingsKeys (m : List (String × String)) : List String :=
  m.map (fun kv => kv.1)

/-- The `appSettings` value the `EventSubscription` constructor passes to
the `FunctionApp` (`subscription.ts`):
`{ ...settings, "WEBSITE_RUN_FROM_ZIP": codeBlobUrl }` — the caller's
settings spread first, then the single well-known key bound to the
signed blob URL (JavaScript spread keeps the original slot of an
existing key and overwrites its value). -/
def functionAppAppSettings (settings : List (String × String)) (codeBlobUrl : String) :
    List (String × String) :=
  settingsSet settings "WEBSITE_RUN_FROM_ZIP" codeBlobUrl

/-- The argument fields of `BlobEventSubscriptionArgs` that `onBlobEvent`
(`storage/account.ts`) reads to compute the trigger path.  `prefixFilter`
and `suffixFilter` model the source's `filterPrefix` / `filterSuffix`
fields; `none` is an absent field. -/
structure BlobEventArgs where
  path : Option String
  containerName : Option String
  prefixFilter : Option String
  suffixFilter : Option String
deriving DecidableEq, Repr

/-- JavaScript truthiness of a possibly-absent string: `undefined` and
the empty string are falsy. -/
def jsTruthy : Option String → Bool
  | none => false
  | some s => !s.isEmpty

/-- JavaScript `x || ""` on a possibly-absent string: both `undefined`
and `""` yield `""`, so this is just the default. -/
def jsOrEmpty (o : Option String) : String :=
  o.getD ""

/-- The trigger-path computation at the top of `onBlobEvent`
(`storage/account.ts`): use `args.path` when truthy; otherwise build
`containerName + "/" + prefix + "\x7bblobName\x7d" + suffix` when
`args.containerName` is truthy; otherwise throw a `RunError`. -/
def computeBlobTriggerPath (args : BlobEventArgs) : Except String String :=
  if jsTruthy args.path then
    .ok (jsOrEmpty args.path)
  else if jsTruthy args.containerName then
    .ok (jsOrEmpty args.containerName ++ "/" ++ jsOrEmpty args.prefixFilter ++
      "\x7bblobName\x7d" ++ jsOrEmpty args.suffixFilter)
  else
    .error "Either [path] or [containerName] must be present in [args]"

/-- The blob binding record `onBlobEvent` constructs, field for field. -/
structure BlobBinding where
  name : String
  type : String
  direction : String
  dataType : String
  path : String
  connection : String
deriving DecidableEq, Repr

/-- The well-known app-settings key whose value holds the storage
connection string referenced by the binding's `connection` field. -/
def bindingConnectionKey : String := "BindingConnectionAppSettingsKey"

/-- Model of `onBlobEvent` up to the construction of its bindings array: the
trigger path is computed first (throwing before any resource is
constructed when both `path` and `containerName` are absent), then the
single blob binding is built from it. -/
def onBlobEventBindings (args : BlobEventArgs) : Except String (List BlobBinding) :=
  match computeBlobTriggerPath args with
  | .error e => .error e
  | .ok p =>
    .ok [{ name := "blob", type := "blobTrigger", direction := "in",
           dataType := "binary", path := p, connection := bindingConnectionKey }]

/-- Example node: an installed `lodash` with no further dependencies. -/
def lodashNode : PkgTree :=
  .node { name := "lodash", path := "node_modules/lodash",
          dependencies := [], devDependencies := [], peerDependencies := [] } []

/-- Example tree: a project whose only runtime dependency is `lodash`,
installed at depth 1 (the concrete scenario of the spec). -/
def rootLodash : PkgTree :=
  .node { name := "app", path := ".",
          dependencies := ["lodash"], devDependencies := [], peerDependencies := [] } [lodashNode]

/-- Example tree: a project declaring `lodash` (installed) and
`left-pad` (absent from the installed tree). -/
def rootMissingDep : PkgTree :=
  .node { name := "app", path := ".",
          dependencies := ["lodash", "left-pad"],
          devDependencies := [], peerDependencies := [] } [lodashNode]

/-- Example node: an installed `@pulumi/pulumi` (a scoped package, so its
effective name is recomputed from its folder names). -/
def pulumiNode : PkgTree :=
  .node { name := "pulumi", path := "node_modules/@pulumi/pulumi",
          dependencies := [], devDependencies := [], peerDependencies := [] } []

/-- Example tree: a project depending on `@pulumi/pulumi` and `lodash`,
both installed. -/
def rootWithPulumi : PkgTree :=
  .node { name := "app", path := ".",
          dependencies := ["@pulumi/pulumi", "lodash"],
          devDependencies := [], peerDependencies := [] } [pulumiNode, lodashNode]

/-- Example node: package `A`, declaring a dependency on `B`. -/
def cycNodeA : PkgTree :=
  .node { name := "A", path := "node_modules/A",
          dependencies := ["B"], devDependencies := [], peerDependencies := [] } []

/-- Example node: package `B`, declaring a dependency back on `A`. -/
def cycNodeB : PkgTree :=
  .node { name := "B", path := "node_modules/B",
          dependencies := ["A"], devDependencies := [], peerDependencies := [] } []

/-- Example tree: a project whose dependency graph has the cycle
`A → B → A` (both packages installed as siblings at depth 1). -/
def cycTreeExample : PkgTree :=
  .node { name := "app", path := ".",
          dependencies := ["A"], devDependencies := [], peerDependencies := [] } [cycNodeA, cycNodeB]

/-- Example tree: `lodash` is installed but reachable only through the
root's `devDependencies` declaration. -/
def rootDevOnly : PkgTree :=
  .node { name := "app", path := ".",
          dependencies := [], devDependencies := ["lodash"], peerDependencies := [] } [lodashNode]

lemma settingsSet_cons_hit (kv : String × String) (rest : List (String × String)) (k v : String)
    (hk : kv.1 = k) :
    settingsSet (kv :: rest) k v =
      (k, v) :: rest.map (fun kv => if kv.1 == k then (k, v) else kv) := by
  simp [settingsSet, hk]

lemma settingsSet_cons_miss (kv : String × String) (rest : List (String × String)) (k v : String)
    (hk : ¬ kv.1 = k) :
    settingsSet (kv :: rest) k v = kv :: settingsSet rest k v := by
  simp only [settingsSet, List.any_cons, beq_iff_eq, hk, decide_eq_true_eq, false_or,
    decide_False, Bool.false_or]
  by_cases hr : rest.any (fun kv => kv.1 == k)
  · simp [hr, hk]
  · simp [hr, hk]

lemma settingsGet_cons (kv : String × String) (rest : List (String × String)) (k : String) :
    settingsGet (kv :: rest) k = if kv.1 = k then some kv.2 else settingsGet rest k := by
  by_cases h : kv.1 = k
  · simp [settingsGet, h]
  · simp [settingsGet, List.find?_cons, h]

lemma settingsGet_settingsSet_self (m : List (String × String)) (k v : String) :
    settingsGet (settingsSet m k v) k = some v := by
  induction m with
  | nil => simp [settingsSet, settingsGet]
  | cons kv rest ih =>
    by_cases hk : kv.1 = k
    · rw [settingsSet_cons_hit kv rest k v hk, settingsGet_cons]
      simp
    · rw [settingsSet_cons_miss kv rest k v hk, settingsGet_cons]
      simp [hk, ih]

lemma settingsGet_settingsSet_other (m : List (String × String)) (k v k' : String)
    (h : k' ≠ k) : settingsGet (settingsSet m k v) k' = settingsGet m k' := by
  induction m with
  | nil => simp [settingsSet, settingsGet, Ne.symm h]
  | cons kv rest ih =>
    by_cases hk : kv.1 = k
    · rw [settingsSet_cons_hit kv rest k v hk, settingsGet_cons, settingsGet_cons]
      simp only [Ne.symm h, if_false, hk]
      clear ih
      induction rest with
      | nil => simp [settingsGet]
      | cons kv2 rest2 ih2 =>
        by_cases hk2 : kv2.1 = k
        · simp only [List.map_cons, beq_iff_eq, hk2, if_true, settingsGet_cons, Ne.symm h,
            if_false]
          simpa [hk2, Ne.symm h] using ih2
        · simp only [List.map_cons, beq_iff_eq, hk2, if_false, settingsGet_cons]
          by_cases hx : kv2.1 = k'
          · simp [hx]
          · simpa [hx] using ih2
    · rw [settingsSet_cons_miss kv rest k v hk, settingsGet_cons, settingsGet_cons]
      by_cases hx : kv.1 = k'
      · simp [hx]
      · simp [hx, ih]

lemma keysMap_overwrite (m : List (String × String)) (k v : String) :
    (m.map (fun kv => if kv.1 == k then (k, v) else kv)).map (fun kv => kv.1) =
      m.map (fun kv => kv.1) := by
  induction m with
  | nil => rfl
  | cons kv rest ih =>
    simp only [List.map_cons, ih]
    congr 1
    by_cases hk : kv.1 = k
    · simp [hk]
    · simp [hk]

lemma contains_keys_eq_any (m : List (String × String)) (k : String) :
    (settingsKeys m).contains k = m.any (fun kv => kv.1 == k) := by
  induction m with
  | nil => rfl
  | cons kv rest ih =>
    simp only [settingsKeys, List.map_cons, List.contains_cons, List.any_cons, ih]
    congr 1
    simp [eq_comm]

lemma settingsKeys_settingsSet (m : List (String × String)) (k v : String) :
    settingsKeys (settingsSet m k v) =
      if (settingsKeys m).contains k then settingsKeys m else settingsKeys m ++ [k] := by
  unfold settingsSet
  rw [contains_keys_eq_any]
  by_cases ha : m.any (fun kv => kv.1 == k)
  · simp only [ha, if_true]
    exact keysMap_overwrite m k v
  · simp only [ha, Bool.false_eq_true, if_false]
    simp [settingsKeys]

/-- Claim C2 (confirmed): for a fixed triple of storage connection
string, container name and blob name, two invocations of
`signedBlobReadUrl` produce byte-identical signed URL strings.  The
result is independent of the invocation time (`now` is never consulted),
because the signing request carries the fixed calendar instants
`new Date(0)` and `new Date(2100, 1)` rather than anything derived from
the clock.  Covers both the account-SAS revision (`util.ts` /
`storage/account.ts`) and the blob-service revision
(`functionApp.ts`). -/
theorem signedBlobReadUrl_idempotent :
    (∀ (getAccountSAS : AccountSASRequest → String) (now₁ now₂ blobUrl connectionString : String),
      signedBlobReadUrl getAccountSAS now₁ blobUrl connectionString =
        signedBlobReadUrl getAccountSAS now₂ blobUrl connectionString) ∧
    (∀ (generateSAS : String → String → String → SharedAccessPolicy → String)
        (getUrl : String → String → String → String → String)
        (now₁ now₂ connectionString containerName blobName : String),
      signedBlobReadUrlFA generateSAS getUrl now₁ connectionString containerName blobName =
        signedBlobReadUrlFA generateSAS getUrl now₂ connectionString containerName blobName) ∧
    (∀ connectionString, (accountSASRequest connectionString).start = signatureStartISO ∧
        (accountSASRequest connectionString).expiry = signatureExpirationISO) ∧
    blobSASPolicy.expiry = signatureExpirationISO :=
  ⟨fun _ _ _ _ _ => rfl, fun _ _ _ _ _ _ _ => rfl, fun _ => ⟨rfl, rfl⟩, rfl⟩

/-- Claim C8 (confirmed): every shared-access signature requested through
`signedBlobReadUrl` grants the read permission only.  The account-SAS
request of the `util.ts` revision sets `read` and clears `write`,
`create`, `add`, `list`, `delete`, `update` and `process` for every
connection string; the blob-service revision of `functionApp.ts` passes
exactly the `READ` permission string. -/
theorem signedBlobReadUrl_readOnly :
    (∀ connectionString, (accountSASRequest connectionString).permissions =
      { read := true, write := false, create := false, add := false,
        «list» := false, delete := false, update := false, process := false }) ∧
    blobSASPolicy.permissions = "r" :=
  ⟨fun _ => rfl, rfl⟩

/-- Claim C6 (confirmed): calling the packaging step (`serializeCallback`
of the unnamed `subscription.ts` revision) with both `func` and
`factoryFunc` supplied, or with neither, yields a fatal configuration
error, and the step list is empty — no serialization or filesystem
code-path walk of the packaging step has begun. -/
theorem serializeCallback_mutual_exclusivity :
    ∀ (name : String) (bindings : List Binding) (serializedHandlerText : String)
      (codePaths : List (String × Asset)),
      serializeCallback ⟨true, true⟩ name bindings serializedHandlerText codePaths =
        ([], .error "Cannot provide both [func] and [factoryFunc]") ∧
      serializeCallback ⟨false, false⟩ name bindings serializedHandlerText codePaths =
        ([], .error "Missing required function callback") :=
  fun _ _ _ _ => ⟨rfl, rfl⟩

/-- Claim C9 (confirmed): the `FunctionApp` application settings built by
the `EventSubscription` constructor bind the single key
`WEBSITE_RUN_FROM_ZIP` to the signed blob URL, carry every other
key-value pair of the caller-supplied settings over unchanged, and add
no key other than `WEBSITE_RUN_FROM_ZIP`. -/
theorem eventSubscription_appSettings_frame :
    ∀ (settings : List (String × String)) (codeBlobUrl : String),
      settingsGet (functionAppAppSettings settings codeBlobUrl) "WEBSITE_RUN_FROM_ZIP" =
        some codeBlobUrl ∧
      (∀ k, k ≠ "WEBSITE_RUN_FROM_ZIP" →
        settingsGet (functionAppAppSettings settings codeBlobUrl) k = settingsGet settings k) ∧
      settingsKeys (functionAppAppSettings settings codeBlobUrl) =
        (if (settingsKeys settings).contains "WEBSITE_RUN_FROM_ZIP" then settingsKeys settings
          else settingsKeys settings ++ ["WEBSITE_RUN_FROM_ZIP"]) :=
  fun settings codeBlobUrl =>
    ⟨settingsGet_settingsSet_self settings "WEBSITE_RUN_FROM_ZIP" codeBlobUrl,
     fun k hk => settingsGet_settingsSet_other settings "WEBSITE_RUN_FROM_ZIP" codeBlobUrl k hk,
     settingsKeys_settingsSet settings "WEBSITE_RUN_FROM_ZIP" codeBlobUrl⟩

/-- Witness for claim C9: the frame property evaluated on a concrete
settings map with one pre-existing key. -/
theorem eventSubscription_appSettings_frame_witness :
    settingsGet (functionAppAppSettings [("existing", "1")] "https://u") "WEBSITE_RUN_FROM_ZIP" =
      some "https://u" ∧
    settingsGet (functionAppAppSettings [("existing", "1")] "https://u") "existing" =
      settingsGet [("existing", "1")] "existing" ∧
    settingsKeys (functionAppAppSettings [("existing", "1")] "https://u") =
      settingsKeys [("existing", "1")] ++ ["WEBSITE_RUN_FROM_ZIP"] := by
  have h := eventSubscription_appSettings_frame [("existing", "1")] "https://u"
  refine ⟨h.1, h.2.1 "existing" (by decide), ?_⟩
  rw [h.2.2]
  decide

/-- Counterexample for claim C10: with `args.path` provided but equal to
the empty string (and `containerName` provided), `onBlobEvent` does not
use `args.path` as the trigger path — JavaScript truthiness sends the
empty string to the `containerName` branch instead of the `path`
branch. -/
theorem onBlobEvent_path_cex :
    computeBlobTriggerPath
        { path := some "", containerName := some "c",
          prefixFilter := none, suffixFilter := none } =
      .ok ("c/\x7bblobName\x7d") ∧
    computeBlobTriggerPath
        { path := some "", containerName := some "c",
          prefixFilter := none, suffixFilter := none } ≠ .ok "" := by
  refine ⟨rfl, ?_⟩
  rw [(rfl :
    computeBlobTriggerPath
        { path := some "", containerName := some "c",
          prefixFilter := none, suffixFilter := none } =
      .ok ("c/\x7bblobName\x7d"))]
  intro h
  injection h with h'
  exact absurd h' (by decide)

/-- Claim C10 (corrected): in `onBlobEvent`, if `args.path` is provided
and non-empty it is used as the blob trigger path and `containerName`,
`filterPrefix` and `filterSuffix` are ignored; otherwise, if
`args.containerName` is provided and non-empty, the trigger path equals
`containerName + "/" + filterPrefix + "\x7bblobName\x7d" + filterSuffix`
with an absent (or empty) filter contributing the empty string; if
neither a non-empty `path` nor a non-empty `containerName` is provided, a
run error is raised before any subscription resource is constructed. -/
theorem onBlobEvent_path_selection :
    (∀ (args : BlobEventArgs) (p : String), args.path = some p → p ≠ "" →
      computeBlobTriggerPath args = .ok p) ∧
    (∀ (args : BlobEventArgs) (cn : String), jsTruthy args.path = false →
      args.containerName = some cn → cn ≠ "" →
      computeBlobTriggerPath args =
        .ok (cn ++ "/" ++ jsOrEmpty args.prefixFilter ++ "\x7bblobName\x7d" ++
          jsOrEmpty args.suffixFilter)) ∧
    (∀ (args : BlobEventArgs), jsTruthy args.path = false →
      jsTruthy args.containerName = false →
      onBlobEventBindings args =
        .error "Either [path] or [containerName] must be present in [args]") := by
  refine ⟨?_, ?_, ?_⟩
  · intro args p hp hne
    have ht : jsTruthy args.path = true := by
      rw [hp]
      show (!p.isEmpty) = true
      rw [Bool.not_eq_true', Bool.eq_false_iff]
      intro hT
      exact hne ((String.isEmpty_iff p).mp hT)
    simp only [computeBlobTriggerPath, ht, if_true]
    rw [hp]
    rfl
  · intro args cn hf hcn hne
    have ht : jsTruthy args.containerName = true := by
      rw [hcn]
      show (!cn.isEmpty) = true
      rw [Bool.not_eq_true', Bool.eq_false_iff]
      intro hT
      exact hne ((String.isEmpty_iff cn).mp hT)
    simp only [computeBlobTriggerPath, hf, ht, Bool.false_eq_true, if_false, if_true]
    rw [hcn]
    rfl
  · intro args hf hc
    simp only [onBlobEventBindings, computeBlobTriggerPath, hf, hc, Bool.false_eq_true,
      if_false]

/-- Witness for claim C10: the three branches evaluated at concrete
argument records. -/
theorem onBlobEvent_path_selection_witness :
    computeBlobTriggerPath
        { path := some "container/blob.png", containerName := some "ignored",
          prefixFilter := some "ignored", suffixFilter := some "ignored" } =
      .ok "container/blob.png" ∧
    computeBlobTriggerPath
        { path := none, containerName := some "images",
          prefixFilter := some "in/", suffixFilter := some ".png" } =
      .ok ("images/in/\x7bblobName\x7d.png") ∧
    onBlobEventBindings
        { path := none, containerName := none,
          prefixFilter := none, suffixFilter := none } =
      .error "Either [path] or [containerName] must be present in [args]" := by
  have h := onBlobEvent_path_selection
  refine ⟨h.1 _ "container/blob.png" rfl (by decide), ?_, h.2.2 _ rfl rfl⟩
  have h2 := h.2.1
      { path := none, containerName := some "images",
        prefixFilter := some "in/", suffixFilter := some ".png" }
      "images" rfl rfl (by decide)
  exact h2.trans (congrArg Except.ok (by decide))

/-- Claim C7 (confirmed): an error reading the package tree rejects the
entire resolution with that error (fatal); a dependency name that
`findDependency` cannot locate anywhere is recorded with a warning and
skipped, leaving the path set unchanged, and the resolution continues —
concretely, a project declaring installed `lodash` and absent
`left-pad` resolves to `lodash`'s path plus a warning for
`left-pad`. -/
theorem resolver_failure_semantics :
    (∀ (e : String) (fuel : Nat) (includedPackages excludedPackages : List String),
      allFoldersForPackages fuel (.error e) includedPackages excludedPackages = .error e) ∧
    (∀ (tree : PkgTree) (excludedPackages : List String) (fuel : Nat) (pos : List Nat)
        (pkg : String) (paths warns : List String),
      excludedPackages.contains pkg = false → jsStartsWith pkg "@pulumi" = false →
      findDependency tree pos pkg = none →
      addPackageAndDependenciesToSet tree excludedPackages (fuel + 1) pos pkg (paths, warns) =
        some (paths, warns ++ [pkg])) ∧
    allFoldersForPackages 5 (.ok rootMissingDep) [] [] =
      .ok (some (["node_modules/lodash"], ["left-pad"])) := by
  refine ⟨fun _ _ _ _ => rfl, ?_, by rfl⟩
  intro tree excludedPackages fuel pos pkg paths warns h1 h2 h3
  simp only [addPackageAndDependenciesToSet, addPackageStep, h1, h2, h3, Bool.or_self,
    Bool.false_eq_true, if_false]

/-- Witness for claim C7: the warning-and-skip step applied to the
missing `left-pad` dependency of the concrete example tree. -/
theorem resolver_failure_semantics_witness :
    ([] : List String).contains "left-pad" = false ∧
    jsStartsWith "left-pad" "@pulumi" = false ∧
    findDependency rootMissingDep [] "left-pad" = none ∧
    addPackageAndDependenciesToSet rootMissingDep [] 3 [] "left-pad"
        (["node_modules/lodash"], []) =
      some (["node_modules/lodash"], ["left-pad"]) :=
  ⟨rfl, by decide, by rfl,
    resolver_failure_semantics.2.1 rootMissingDep [] 2 [] "left-pad"
      ["node_modules/lodash"] [] rfl (by decide) (by rfl)⟩

lemma cyc_BA_none :
    ∀ fuel : Nat,
      (∀ st : ResolveState,
        addPackageAndDependenciesToSet cycTreeExample [] fuel [0] "B" st = none) ∧
      (∀ st : ResolveState,
        addPackageAndDependenciesToSet cycTreeExample [] fuel [1] "A" st = none) := by
  intro fuel
  induction fuel with
  | zero => exact ⟨fun _ => rfl, fun _ => rfl⟩
  | succ f ih =>
    constructor
    · intro st
      show addPackageStep cycTreeExample []
        (addPackageAndDependenciesToSet cycTreeExample [] f) [0] "B" st = none
      rw [addPackageStep]
      rw [show (([] : List String).contains "B" || jsStartsWith "B" "@pulumi") = false from rfl]
      rw [if_neg (by simp)]
      rw [show findDependency cycTreeExample [0] "B" = some ([1], cycNodeB) from rfl]
      show depLoop (addPackageAndDependenciesToSet cycTreeExample [] f) [1] ["A"]
        (setAdd st.1 "node_modules/B", st.2) = none
      rw [depLoop]
      rw [ih.2]
    · intro st
      show addPackageStep cycTreeExample []
        (addPackageAndDependenciesToSet cycTreeExample [] f) [1] "A" st = none
      rw [addPackageStep]
      rw [show (([] : List String).contains "A" || jsStartsWith "A" "@pulumi") = false from rfl]
      rw [if_neg (by simp)]
      rw [show findDependency cycTreeExample [1] "A" = some ([0], cycNodeA) from rfl]
      show depLoop (addPackageAndDependenciesToSet cycTreeExample [] f) [0] ["B"]
        (setAdd st.1 "node_modules/A", st.2) = none
      rw [depLoop]
      rw [ih.1]

lemma cyc_root_none :
    ∀ (fuel : Nat) (st : ResolveState),
      addPackageAndDependenciesToSet cycTreeExample [] fuel [] "A" st = none := by
  intro fuel st
  cases fuel with
  | zero => rfl
  | succ f =>
    show addPackageStep cycTreeExample []
      (addPackageAndDependenciesToSet cycTreeExample [] f) [] "A" st = none
    rw [addPackageStep]
    rw [show (([] : List String).contains "A" || jsStartsWith "A" "@pulumi") = false from rfl]
    rw [if_neg (by simp)]
    rw [show findDependency cycTreeExample [] "A" = some ([0], cycNodeA) from rfl]
    show depLoop (addPackageAndDependenciesToSet cycTreeExample [] f) [0] ["B"]
      (setAdd st.1 "node_modules/A", st.2) = none
    rw [depLoop]
    rw [(cyc_BA_none f).1]

/-- Counterexample for claim C1: on the concrete project whose
dependency graph has the cycle `A → B → A`, the resolution call never
returns — no finite recursion-depth bound suffices, because
`addPackageAndDependenciesToSet` keeps no visited set and re-descends
into the cycle forever. -/
theorem resolver_cycle_cex : ¬ ResolutionTerminates cycTreeExample [] [] := by
  rintro ⟨fuel, st, h⟩
  have hall : allFoldersForPackages fuel (.ok cycTreeExample) [] [] = .ok none := by
    show Except.ok (addDependencyList cycTreeExample [] fuel []
      (referencedPackages cycTreeExample.info []) ([], [])) = .ok none
    rw [show referencedPackages cycTreeExample.info [] = ["A"] from rfl]
    show Except.ok (depLoop (addPackageAndDependenciesToSet cycTreeExample [] fuel) [] ["A"]
      ([], [])) = .ok none
    rw [depLoop]
    rw [cyc_root_none fuel]
  rw [hall] at h
  exact Option.noConfusion (Except.ok.inj h)

lemma setAdd_nodup (l : List String) (x : String) (h : l.Nodup) : (setAdd l x).Nodup := by
  unfold setAdd
  by_cases hc : l.contains x = true
  · rw [if_pos hc]
    exact h
  · rw [if_neg hc]
    rw [List.nodup_append]
    refine ⟨h, List.nodup_singleton x, ?_⟩
    intro a ha hax
    rw [List.mem_singleton] at hax
    subst hax
    exact hc (List.elem_eq_true_of_mem ha)

lemma resolver_nodup_pair (tree : PkgTree) (excludedPackages : List String) :
    ∀ fuel : Nat,
      (∀ pos pkg st res,
        addPackageAndDependenciesToSet tree excludedPackages fuel pos pkg st = some res →
        st.1.Nodup → res.1.Nodup) ∧
      (∀ pos ds st res,
        depLoop (addPackageAndDependenciesToSet tree excludedPackages fuel) pos ds st = some res →
        st.1.Nodup → res.1.Nodup) := by
  intro fuel
  induction fuel with
  | zero =>
    constructor
    · intro pos pkg st res h
      exact absurd h (by simp [addPackageAndDependenciesToSet])
    · intro pos ds st res h hnd
      cases ds with
      | nil =>
        rw [depLoop] at h
        cases h
        exact hnd
      | cons d ds =>
        rw [depLoop] at h
        simp only [addPackageAndDependenciesToSet] at h
        exact absurd h (by simp)
  | succ f ih =>
    have hP : ∀ pos pkg st res,
        addPackageAndDependenciesToSet tree excludedPackages (f + 1) pos pkg st = some res →
        st.1.Nodup → res.1.Nodup := by
      intro pos pkg st res h hnd
      rw [show addPackageAndDependenciesToSet tree excludedPackages (f + 1) pos pkg st =
        addPackageStep tree excludedPackages
          (addPackageAndDependenciesToSet tree excludedPackages f) pos pkg st from rfl,
        addPackageStep] at h
      by_cases hc : (excludedPackages.contains pkg || jsStartsWith pkg "@pulumi") = true
      · rw [if_pos hc] at h
        cases h
        exact hnd
      · rw [if_neg hc] at h
        cases hf : findDependency tree pos pkg with
        | none =>
          rw [hf] at h
          cases h
          exact hnd
        | some found =>
          rw [hf] at h
          cases found with
          | mk childPos child =>
            exact ih.2 childPos child.info.dependencies _ res h (setAdd_nodup st.1 _ hnd)
    refine ⟨hP, ?_⟩
    intro pos ds
    induction ds with
    | nil =>
      intro st res h hnd
      rw [depLoop] at h
      cases h
      exact hnd
    | cons d ds ihds =>
      intro st res h hnd
      rw [depLoop] at h
      cases hstep : addPackageAndDependenciesToSet tree excludedPackages (f + 1) pos d st with
      | none => rw [hstep] at h; exact absurd h (by simp)
      | some st₁ =>
        rw [hstep] at h
        exact ihds st₁ res h (hP pos d st st₁ hstep hnd)

/-- Claim C1 (corrected): the resolver keeps no visited set, so on a
package tree whose dependency graph contains a cycle the resolution
call need not terminate (see the counterexample).  What does hold for
every package tree: whenever resolution returns a path set, each node's
path appears at most once in it, because the accumulator has set
semantics. -/
theorem resolver_paths_nodup :
    ∀ (fuel : Nat) (tree : PkgTree) (includedPackages excludedPackages paths warns : List String),
      allFoldersForPackages fuel (.ok tree) includedPackages excludedPackages =
        .ok (some (paths, warns)) →
      paths.Nodup := by
  intro fuel tree includedPackages excludedPackages paths warns h
  have h' : addDependencyList tree excludedPackages fuel []
      (referencedPackages tree.info includedPackages) ([], []) = some (paths, warns) :=
    Except.ok.inj h
  exact (resolver_nodup_pair tree excludedPackages fuel).2 []
    (referencedPackages tree.info includedPackages) ([], []) (paths, warns) h' (by simp)

/-- Witness for claim C1: duplicate-freeness of the returned path set on
the concrete one-dependency project. -/
theorem resolver_paths_nodup_witness :
    allFoldersForPackages 5 (.ok rootLodash) [] [] = .ok (some (["node_modules/lodash"], [])) ∧
    (["node_modules/lodash"] : List String).Nodup :=
  ⟨by rfl, resolver_paths_nodup 5 rootLodash [] [] ["node_modules/lodash"] [] (by rfl)⟩

lemma info_mem_allNodes (t : PkgTree) : t.info ∈ allNodes t := by
  cases t with
  | node i cs => simp [allNodes, PkgTree.info]

lemma mem_allNodesList_of_mem {c : PkgTree} {cs : List PkgTree} (hc : c ∈ cs)
    {x : PkgInfo} (hx : x ∈ allNodes c) : x ∈ allNodesList cs := by
  induction cs with
  | nil => cases hc
  | cons d ds ih =>
    rw [allNodesList, List.mem_append]
    rcases List.mem_cons.mp hc with h | h
    · subst h
      exact Or.inl hx
    · exact Or.inr (ih h)

lemma allNodes_subset_of_child {c : PkgTree} {t : PkgTree} (hc : c ∈ t.children)
    {x : PkgInfo} (hx : x ∈ allNodes c) : x ∈ allNodes t := by
  cases t with
  | node i cs =>
    rw [allNodes, List.mem_cons]
    exact Or.inr (mem_allNodesList_of_mem hc hx)

lemma getNode_allNodes_subset :
    ∀ (a : List Nat) (t n : PkgTree), getNode a t = some n →
      ∀ x ∈ allNodes n, x ∈ allNodes t := by
  intro a
  induction a with
  | nil =>
    intro t n h x hx
    rw [getNode] at h
    cases h
    exact hx
  | cons i rest ih =>
    intro t n h x hx
    cases t with
    | node inf cs =>
      rw [getNode] at h
      cases hc : cs[i]? with
      | none => rw [hc] at h; exact absurd h (by simp)
      | some c =>
        rw [hc] at h
        exact allNodes_subset_of_child (t := .node inf cs)
          (List.getElem?_mem hc) (ih c n h x hx)

lemma findChildIdx_sound :
    ∀ (name : String) (i : Nat) (cs : List PkgTree) (j : Nat) (c : PkgTree),
      findChildIdx name i cs = some (j, c) →
      c ∈ cs ∧ childNameOf c.info = name := by
  intro name i cs
  induction cs generalizing i with
  | nil => intro j c h; exact absurd h (by simp [findChildIdx])
  | cons d ds ih =>
    intro j c h
    rw [findChildIdx] at h
    by_cases hd : (childNameOf d.info == name) = true
    · rw [if_pos hd] at h
      cases h
      exact ⟨List.mem_cons_self d ds, beq_iff_eq.mp hd⟩
    · rw [if_neg hd] at h
      have := ih (i + 1) j c h
      exact ⟨List.mem_cons_of_mem d this.1, this.2⟩

lemma findDependencyAux_sound :
    ∀ (tree : PkgTree) (name : String) (as : List (List Nat)) (cpos : List Nat) (c : PkgTree),
      findDependencyAux tree name as = some (cpos, c) →
      c.info ∈ allNodes tree ∧ childNameOf c.info = name := by
  intro tree name as
  induction as with
  | nil => intro cpos c h; exact absurd h (by simp [findDependencyAux])
  | cons a rest ih =>
    intro cpos c h
    rw [findDependencyAux] at h
    split at h
    · next n hg =>
      split at h
      · next j cnode hfc =>
        cases h
        have hs := findChildIdx_sound name 0 n.children j c hfc
        exact ⟨getNode_allNodes_subset a tree n hg c.info
          (allNodes_subset_of_child hs.1 (info_mem_allNodes c)), hs.2⟩
      · next hfc =>
        exact ih cpos c h
    · next hg =>
      exact ih cpos c h

lemma findDependency_sound (tree : PkgTree) (pos : List Nat) (name : String)
    (cpos : List Nat) (c : PkgTree) (h : findDependency tree pos name = some (cpos, c)) :
    c.info ∈ allNodes tree ∧ childNameOf c.info = name :=
  findDependencyAux_sound tree name (ancestorsOf pos) cpos c h

lemma mem_setAdd {l : List String} {x p : String} (h : p ∈ setAdd l x) : p ∈ l ∨ p = x := by
  unfold setAdd at h
  by_cases hc : l.contains x = true
  · rw [if_pos hc] at h
    exact Or.inl h
  · rw [if_neg hc] at h
    rcases List.mem_append.mp h with h | h
    · exact Or.inl h
    · exact Or.inr (List.mem_singleton.mp h)

lemma resolver_excl_pair (tree : PkgTree) (excludedPackages : List String) :
    ∀ fuel : Nat,
      (∀ pos pkg st res,
        addPackageAndDependenciesToSet tree excludedPackages fuel pos pkg st = some res →
        ∀ p ∈ res.1, p ∈ st.1 ∨
          ∃ info ∈ allNodes tree, info.path = p ∧
            excludedPackages.contains (childNameOf info) = false ∧
            jsStartsWith (childNameOf info) "@pulumi" = false) ∧
      (∀ pos ds st res,
        depLoop (addPackageAndDependenciesToSet tree excludedPackages fuel) pos ds st =
          some res →
        ∀ p ∈ res.1, p ∈ st.1 ∨
          ∃ info ∈ allNodes tree, info.path = p ∧
            excludedPackages.contains (childNameOf info) = false ∧
            jsStartsWith (childNameOf info) "@pulumi" = false) := by
  intro fuel
  induction fuel with
  | zero =>
    constructor
    · intro pos pkg st res h
      exact absurd h (by simp [addPackageAndDependenciesToSet])
    · intro pos ds st res h p hp
      cases ds with
      | nil =>
        rw [depLoop] at h
        cases h
        exact Or.inl hp
      | cons d ds =>
        rw [depLoop] at h
        simp only [addPackageAndDependenciesToSet] at h
        exact absurd h (by simp)
  | succ f ih =>
    have hP : ∀ pos pkg st res,
        addPackageAndDependenciesToSet tree excludedPackages (f + 1) pos pkg st = some res →
        ∀ p ∈ res.1, p ∈ st.1 ∨
          ∃ info ∈ allNodes tree, info.path = p ∧
            excludedPackages.contains (childNameOf info) = false ∧
            jsStartsWith (childNameOf info) "@pulumi" = false := by
      intro pos pkg st res h p hp
      rw [show addPackageAndDependenciesToSet tree excludedPackages (f + 1) pos pkg st =
        addPackageStep tree excludedPackages
          (addPackageAndDependenciesToSet tree excludedPackages f) pos pkg st from rfl,
        addPackageStep] at h
      by_cases hc : (excludedPackages.contains pkg || jsStartsWith pkg "@pulumi") = true
      · rw [if_pos hc] at h
        cases h
        exact Or.inl hp
      · rw [if_neg hc] at h
        have hcf := Bool.or_eq_false_iff.mp (Bool.eq_false_iff.mpr hc)
        cases hf : findDependency tree pos pkg with
        | none =>
          rw [hf] at h
          cases h
          exact Or.inl hp
        | some found =>
          rw [hf] at h
          cases found with
          | mk childPos child =>
            have hsound := findDependency_sound tree pos pkg childPos child hf
            have hrec := ih.2 childPos child.info.dependencies
              (setAdd st.1 child.info.path, st.2) res h p hp
            rcases hrec with hmem | hok
            · rcases mem_setAdd hmem with hmem' | heq
              · exact Or.inl hmem'
              · refine Or.inr ⟨child.info, hsound.1, heq.symm, ?_, ?_⟩
                · rw [hsound.2]
                  exact hcf.1
                · rw [hsound.2]
                  exact hcf.2
            · exact Or.inr hok
    refine ⟨hP, ?_⟩
    intro pos ds
    induction ds with
    | nil =>
      intro st res h p hp
      rw [depLoop] at h
      cases h
      exact Or.inl hp
    | cons d ds ihds =>
      intro st res h p hp
      rw [depLoop] at h
      cases hstep : addPackageAndDependenciesToSet tree excludedPackages (f + 1) pos d st with
      | none => rw [hstep] at h; exact absurd h (by simp)
      | some st₁ =>
        rw [hstep] at h
        rcases ihds st₁ res h p hp with hmem | hok
        · exact hP pos d st st₁ hstep p hmem
        · exact Or.inr hok

/-- Claim C3 (confirmed): on a package tree whose node paths are
unambiguous (two nodes with the same path have the same effective name —
the data-model invariant that paths are unique per node), a package
whose effective name is in the caller-supplied exclusion set, or starts
with the reserved `@pulumi` namespace prefix, never has its path in the
returned path set, even when transitively reachable: every path the
resolver adds belongs to a node that was requested under its effective
name after passing the exclusion check. -/
theorem resolver_exclusion :
    ∀ (fuel : Nat) (tree : PkgTree) (includedPackages excludedPackages paths warns : List String)
      (info : PkgInfo),
      allFoldersForPackages fuel (.ok tree) includedPackages excludedPackages =
        .ok (some (paths, warns)) →
      info ∈ allNodes tree →
      (excludedPackages.contains (childNameOf info) = true ∨
        jsStartsWith (childNameOf info) "@pulumi" = true) →
      (∀ info₂ ∈ allNodes tree, info₂.path = info.path → childNameOf info₂ = childNameOf info) →
      info.path ∉ paths := by
  intro fuel tree includedPackages excludedPackages paths warns info hall hmem hexcl huniq hin
  have h' : addDependencyList tree excludedPackages fuel []
      (referencedPackages tree.info includedPackages) ([], []) = some (paths, warns) :=
    Except.ok.inj hall
  have := (resolver_excl_pair tree excludedPackages fuel).2 []
    (referencedPackages tree.info includedPackages) ([], []) (paths, warns) h' info.path hin
  rcases this with h0 | ⟨info₂, hmem₂, hpath₂, hc₂, hs₂⟩
  · exact List.not_mem_nil _ h0
  · have hname := huniq info₂ hmem₂ hpath₂
    rcases hexcl with he | he
    · rw [hname] at hc₂
      rw [he] at hc₂
      exact Bool.noConfusion hc₂
    · rw [hname] at hs₂
      rw [he] at hs₂
      exact Bool.noConfusion hs₂

/-- Witness for claim C3: the installed `@pulumi/pulumi` package is
reachable from the root's dependencies yet its path is absent from the
resolved set. -/
theorem resolver_exclusion_witness :
    allFoldersForPackages 5 (.ok rootWithPulumi) [] [] =
      .ok (some (["node_modules/lodash"], [])) ∧
    pulumiNode.info ∈ allNodes rootWithPulumi ∧
    jsStartsWith (childNameOf pulumiNode.info) "@pulumi" = true ∧
    pulumiNode.info.path ∉ (["node_modules/lodash"] : List String) := by
  refine ⟨by rfl, by decide, by decide, ?_⟩
  exact resolver_exclusion 5 rootWithPulumi [] [] ["node_modules/lodash"] []
    pulumiNode.info (by rfl) (by decide) (Or.inr (by decide)) (by decide)

lemma depLoop_congr (rec₁ rec₂ : List Nat → String → ResolveState → Option ResolveState)
    (h : ∀ pos pkg st, rec₁ pos pkg st = rec₂ pos pkg st) :
    ∀ pos ds st, depLoop rec₁ pos ds st = depLoop rec₂ pos ds st := by
  intro pos ds
  induction ds with
  | nil => intro st; rfl
  | cons d ds ih =>
    intro st
    rw [depLoop, depLoop, h]
    cases rec₂ pos d st with
    | none => rfl
    | some st₁ => exact ih st₁

lemma findDependencyAux_root_info_irrel (i i' : PkgInfo) (cs : List PkgTree) (name : String) :
    ∀ as, findDependencyAux (.node i cs) name as = findDependencyAux (.node i' cs) name as := by
  intro as
  induction as with
  | nil => rfl
  | cons a rest ih =>
    rw [findDependencyAux, findDependencyAux]
    cases a with
    | nil =>
      dsimp only [getNode, PkgTree.children]
      cases hfc : findChildIdx name 0 cs with
      | none => exact ih
      | some jc => rfl
    | cons j rest' =>
      dsimp only [getNode]
      cases hj : cs[j]? with
      | none => exact ih
      | some c =>
        dsimp only
        cases hg : getNode rest' c with
        | none => exact ih
        | some n =>
          dsimp only
          cases hfc : findChildIdx name 0 n.children with
          | none => exact ih
          | some jc => rfl

lemma addPkg_root_info_irrel (i i' : PkgInfo) (cs : List PkgTree)
    (excludedPackages : List String) :
    ∀ fuel : Nat, ∀ pos pkg st,
      addPackageAndDependenciesToSet (.node i cs) excludedPackages fuel pos pkg st =
        addPackageAndDependenciesToSet (.node i' cs) excludedPackages fuel pos pkg st := by
  intro fuel
  induction fuel with
  | zero => intro pos pkg st; rfl
  | succ f ih =>
    intro pos pkg st
    show addPackageStep (.node i cs) excludedPackages
        (addPackageAndDependenciesToSet (.node i cs) excludedPackages f) pos pkg st =
      addPackageStep (.node i' cs) excludedPackages
        (addPackageAndDependenciesToSet (.node i' cs) excludedPackages f) pos pkg st
    rw [addPackageStep, addPackageStep]
    by_cases hc : (excludedPackages.contains pkg || jsStartsWith pkg "@pulumi") = true
    · rw [if_pos hc, if_pos hc]
    · rw [if_neg hc, if_neg hc]
      rw [show findDependency (.node i cs) pos pkg = findDependency (.node i' cs) pos pkg from
        findDependencyAux_root_info_irrel i i' cs pkg (ancestorsOf pos)]
      cases hf : findDependency (.node i' cs) pos pkg with
      | none => rfl
      | some found =>
        cases found with
        | mk childPos child =>
          exact depLoop_congr _ _ ih childPos child.info.dependencies _

/-- Claim C4 (confirmed): the resolver seeds its working set from the
root's direct runtime dependencies united with the caller-supplied
included packages, and never reads the root's development-only or
peer-only declarations: its result is invariant under replacing them,
and on a concrete project whose `lodash` is reachable only through
`devDependencies` the resolved path set is empty. -/
theorem resolver_runtime_deps_only :
    (∀ (fuel : Nat) (tree : PkgTree) (includedPackages excludedPackages dd pd : List String),
      allFoldersForPackages fuel (.ok (withRootDevPeer tree dd pd)) includedPackages
          excludedPackages =
        allFoldersForPackages fuel (.ok tree) includedPackages excludedPackages) ∧
    allFoldersForPackages 5 (.ok rootDevOnly) [] [] = .ok (some ([], [])) := by
  constructor
  · intro fuel tree includedPackages excludedPackages dd pd
    cases tree with
    | node i cs =>
      show Except.ok (depLoop (addPackageAndDependenciesToSet
          (.node { i with devDependencies := dd, peerDependencies := pd } cs)
          excludedPackages fuel) []
          (referencedPackages i includedPackages) ([], [])) =
        Except.ok (depLoop (addPackageAndDependenciesToSet (.node i cs) excludedPackages fuel) []
          (referencedPackages i includedPackages) ([], []))
      exact congrArg Except.ok
        (depLoop_congr _ _ (addPkg_root_info_irrel _ i cs excludedPackages fuel) []
          (referencedPackages i includedPackages) ([], []))
  · rfl

lemma append_left_cancel' {n a b : String} (h : n ++ a = n ++ b) : a = b := by
  apply String.ext
  have h2 := congrArg String.data h
  rw [String.data_append, String.data_append] at h2
  exact List.append_cancel_left h2

lemma slash_mem_key (n p : String) : '/' ∈ ((n ++ "/") ++ p).data := by
  rw [String.data_append, String.data_append]
  refine List.mem_append.mpr (Or.inl (List.mem_append.mpr (Or.inr ?_)))
  decide

lemma key_ne_host (n p : String) : (n ++ "/") ++ p ≠ "host.json" := by
  intro h
  have hm := slash_mem_key n p
  rw [h] at hm
  exact absurd hm (by decide)

lemma key_split (n s : String) : (n ++ "/") ++ s = n ++ ("/" ++ s) := by
  rw [String.append_assoc]

lemma key_inj {n p q : String} (h : (n ++ "/") ++ p = (n ++ "/") ++ q) : p = q :=
  append_left_cancel' h

lemma objKeys_append (m l : AssetMap) : objKeys (m ++ l) = objKeys m ++ objKeys l := by
  simp [objKeys]

lemma mem_objKeys (m : AssetMap) (k : String) : k ∈ objKeys m ↔ ∃ kv ∈ m, kv.1 = k := by
  simp [objKeys, List.mem_map]

lemma objSet_not_mem (m : AssetMap) (k : String) (v : Asset) (h : ¬ k ∈ objKeys m) :
    objSet m k v = m ++ [(k, v)] := by
  rw [objSet, if_neg]
  intro hany
  rcases List.any_eq_true.mp hany with ⟨kv, hkv, hbeq⟩
  exact h ((mem_objKeys m k).mpr ⟨kv, hkv, beq_iff_eq.mp hbeq⟩)

lemma buildAssetMap_unfold (n : String) (bindings : List Binding) (txt : String)
    (pathSet : List String) (isDirectory : String → Bool) :
    buildAssetMap n bindings txt pathSet isDirectory =
      pathSet.foldl
        (fun m path =>
          objSet m (n ++ "/" ++ path)
            (if isDirectory path then .fileArchive path else .fileAsset path))
        (objSet (objSet (objSet (objSet [] "host.json" (.stringAsset hostJson.stringify))
          (n ++ "/function.json") (.stringAsset (functionJson bindings).stringify))
          (n ++ "/index.js") (.stringAsset indexJsStub))
          (n ++ "/handler.js") (.stringAsset txt)) := rfl

lemma key_split_function (n : String) : n ++ "/function.json" = (n ++ "/") ++ "function.json" := by
  rw [key_split]
  exact rfl

lemma key_split_index (n : String) : n ++ "/index.js" = (n ++ "/") ++ "index.js" := by
  rw [key_split]
  exact rfl

lemma key_split_handler (n : String) : n ++ "/handler.js" = (n ++ "/") ++ "handler.js" := by
  rw [key_split]
  exact rfl

lemma function_key_ne_host (n : String) : n ++ "/function.json" ≠ "host.json" := by
  rw [key_split_function]
  exact key_ne_host n "function.json"

lemma index_key_ne_host (n : String) : n ++ "/index.js" ≠ "host.json" := by
  rw [key_split_index]
  exact key_ne_host n "index.js"

lemma handler_key_ne_host (n : String) : n ++ "/handler.js" ≠ "host.json" := by
  rw [key_split_handler]
  exact key_ne_host n "handler.js"

lemma index_key_ne_function (n : String) : n ++ "/index.js" ≠ n ++ "/function.json" := by
  rw [key_split_index, key_split_function]
  intro h
  exact absurd (key_inj h) (by decide)

lemma handler_key_ne_function (n : String) : n ++ "/handler.js" ≠ n ++ "/function.json" := by
  rw [key_split_handler, key_split_function]
  intro h
  exact absurd (key_inj h) (by decide)

lemma handler_key_ne_index (n : String) : n ++ "/handler.js" ≠ n ++ "/index.js" := by
  rw [key_split_handler, key_split_index]
  intro h
  exact absurd (key_inj h) (by decide)

lemma buildAssetMap_base (n : String) (bindings : List Binding) (txt : String) :
    objSet (objSet (objSet (objSet [] "host.json" (.stringAsset hostJson.stringify))
        (n ++ "/function.json") (.stringAsset (functionJson bindings).stringify))
        (n ++ "/index.js") (.stringAsset indexJsStub))
        (n ++ "/handler.js") (.stringAsset txt) =
      [("host.json", .stringAsset hostJson.stringify),
       (n ++ "/function.json", .stringAsset (functionJson bindings).stringify),
       (n ++ "/index.js", .stringAsset indexJsStub),
       (n ++ "/handler.js", .stringAsset txt)] := by
  have e1 : objSet [] "host.json" (Asset.stringAsset hostJson.stringify) =
      [("host.json", Asset.stringAsset hostJson.stringify)] := rfl
  have e2 : objSet [("host.json", Asset.stringAsset hostJson.stringify)]
      (n ++ "/function.json") (Asset.stringAsset (functionJson bindings).stringify) =
      [("host.json", Asset.stringAsset hostJson.stringify),
       (n ++ "/function.json", Asset.stringAsset (functionJson bindings).stringify)] := by
    rw [objSet_not_mem _ _ _ (by
      intro hm
      rw [show objKeys [("host.json", Asset.stringAsset hostJson.stringify)] = ["host.json"]
        from rfl, List.mem_singleton] at hm
      exact function_key_ne_host n hm)]
    rfl
  have e3 : objSet [("host.json", Asset.stringAsset hostJson.stringify),
      (n ++ "/function.json", Asset.stringAsset (functionJson bindings).stringify)]
      (n ++ "/index.js") (Asset.stringAsset indexJsStub) =
      [("host.json", Asset.stringAsset hostJson.stringify),
       (n ++ "/function.json", Asset.stringAsset (functionJson bindings).stringify),
       (n ++ "/index.js", Asset.stringAsset indexJsStub)] := by
    rw [objSet_not_mem _ _ _ (by
      intro hm
      rw [show objKeys [("host.json", Asset.stringAsset hostJson.stringify),
          (n ++ "/function.json", Asset.stringAsset (functionJson bindings).stringify)] =
        ["host.json", n ++ "/function.json"] from rfl] at hm
      rcases List.mem_cons.mp hm with h | h
      · exact index_key_ne_host n h
      · exact index_key_ne_function n (List.mem_singleton.mp h))]
    rfl
  have e4 : objSet [("host.json", Asset.stringAsset hostJson.stringify),
      (n ++ "/function.json", Asset.stringAsset (functionJson bindings).stringify),
      (n ++ "/index.js", Asset.stringAsset indexJsStub)]
      (n ++ "/handler.js") (Asset.stringAsset txt) =
      [("host.json", Asset.stringAsset hostJson.stringify),
       (n ++ "/function.json", Asset.stringAsset (functionJson bindings).stringify),
       (n ++ "/index.js", Asset.stringAsset indexJsStub),
       (n ++ "/handler.js", Asset.stringAsset txt)] := by
    rw [objSet_not_mem _ _ _ (by
      intro hm
      rw [show objKeys [("host.json", Asset.stringAsset hostJson.stringify),
          (n ++ "/function.json", Asset.stringAsset (functionJson bindings).stringify),
          (n ++ "/index.js", Asset.stringAsset indexJsStub)] =
        ["host.json", n ++ "/function.json", n ++ "/index.js"] from rfl] at hm
      rcases List.mem_cons.mp hm with h | h
      · exact handler_key_ne_host n h
      rcases List.mem_cons.mp h with h | h
      · exact handler_key_ne_function n h
      · exact handler_key_ne_index n (List.mem_singleton.mp h))]
    rfl
  rw [e1, e2, e3, e4]

lemma foldl_objSet_eq_append (n : String) (isDirectory : String → Bool) :
    ∀ (ps : List String) (m : AssetMap),
      (∀ p ∈ ps, ¬ ((n ++ "/") ++ p) ∈ objKeys m) → ps.Nodup →
      ps.foldl
        (fun m path =>
          objSet m (n ++ "/" ++ path)
            (if isDirectory path then .fileArchive path else .fileAsset path)) m =
        m ++ ps.map (fun path =>
          (n ++ "/" ++ path,
           if isDirectory path then Asset.fileArchive path else Asset.fileAsset path)) := by
  intro ps
  induction ps with
  | nil => intro m _ _; simp
  | cons p ps ih =>
    intro m hmem hnd
    rw [List.foldl_cons,
      objSet_not_mem _ _ _ (hmem p (List.mem_cons_self p ps)),
      ih _ ?_ (List.nodup_cons.mp hnd).2]
    · simp
    · intro q hq
      rw [objKeys_append]
      intro hcon
      rcases List.mem_append.mp hcon with hin | hin
      · exact hmem q (List.mem_cons_of_mem p hq) hin
      · rw [show objKeys [((n ++ "/") ++ p,
          if isDirectory p then Asset.fileArchive p else Asset.fileAsset p)] = [(n ++ "/") ++ p]
          from rfl, List.mem_singleton] at hin
        have : q = p := key_inj hin
        exact (List.nodup_cons.mp hnd).1 (this ▸ hq)

/-- Claim C5 (corrected, positive part): when no included path collides
with the reserved per-function entry names (`function.json`, `index.js`,
`handler.js`) and the included paths are distinct, the built asset map
is exactly: one `host.json` entry holding the fixed tracing-verbosity
configuration, one `<name>/function.json` binding manifest with
`disabled = false` and the given bindings, one `<name>/index.js`
entry-point stub, one `<name>/handler.js` entry holding the serialized
handler text verbatim, and one `<name>/<path>` entry per included path
whose kind is a directory archive exactly when the path stats as a
directory — with all keys distinct. -/
theorem buildAssetMap_complete :
    ∀ (name : String) (bindings : List Binding) (serializedHandlerText : String)
      (pathSet : List String) (isDirectory : String → Bool),
      ¬ "function.json" ∈ pathSet → ¬ "index.js" ∈ pathSet → ¬ "handler.js" ∈ pathSet →
      pathSet.Nodup →
      buildAssetMap name bindings serializedHandlerText pathSet isDirectory =
        specAssetMap name bindings serializedHandlerText pathSet isDirectory ∧
      (objKeys (buildAssetMap name bindings serializedHandlerText pathSet isDirectory)).Nodup := by
  intro n bindings txt ps isDirectory hf hi hh hnd
  have hbase := buildAssetMap_base n bindings txt
  have hkeys : ∀ p ∈ ps,
      ¬ ((n ++ "/") ++ p) ∈ objKeys
        [("host.json", Asset.stringAsset hostJson.stringify),
         (n ++ "/function.json", Asset.stringAsset (functionJson bindings).stringify),
         (n ++ "/index.js", Asset.stringAsset indexJsStub),
         (n ++ "/handler.js", Asset.stringAsset txt)] := by
    intro p hp hm
    rw [show objKeys [("host.json", Asset.stringAsset hostJson.stringify),
        (n ++ "/function.json", Asset.stringAsset (functionJson bindings).stringify),
        (n ++ "/index.js", Asset.stringAsset indexJsStub),
        (n ++ "/handler.js", Asset.stringAsset txt)] =
      ["host.json", n ++ "/function.json", n ++ "/index.js", n ++ "/handler.js"] from rfl] at hm
    rcases List.mem_cons.mp hm with h | hm
    · exact key_ne_host n p h
    rcases List.mem_cons.mp hm with h | hm
    · rw [key_split_function] at h
      exact hf (key_inj h ▸ hp)
    rcases List.mem_cons.mp hm with h | hm
    · rw [key_split_index] at h
      exact hi (key_inj h ▸ hp)
    · have h := List.mem_singleton.mp hm
      rw [key_split_handler] at h
      exact hh (key_inj h ▸ hp)
  have heq : buildAssetMap n bindings txt ps isDirectory =
      [("host.json", Asset.stringAsset hostJson.stringify),
       (n ++ "/function.json", Asset.stringAsset (functionJson bindings).stringify),
       (n ++ "/index.js", Asset.stringAsset indexJsStub),
       (n ++ "/handler.js", Asset.stringAsset txt)] ++
      ps.map (fun path =>
        (n ++ "/" ++ path,
         if isDirectory path then Asset.fileArchive path else Asset.fileAsset path)) := by
    rw [buildAssetMap_unfold, hbase]
    exact foldl_objSet_eq_append n isDirectory ps _ hkeys hnd
  refine ⟨heq, ?_⟩
  rw [heq, objKeys_append]
  rw [show objKeys [("host.json", Asset.stringAsset hostJson.stringify),
      (n ++ "/function.json", Asset.stringAsset (functionJson bindings).stringify),
      (n ++ "/index.js", Asset.stringAsset indexJsStub),
      (n ++ "/handler.js", Asset.stringAsset txt)] =
    ["host.json", n ++ "/function.json", n ++ "/index.js", n ++ "/handler.js"] from rfl]
  rw [show objKeys (ps.map (fun path =>
      (n ++ "/" ++ path,
       if isDirectory path then Asset.fileArchive path else Asset.fileAsset path))) =
    ps.map (fun path => (n ++ "/") ++ path) by
      rw [objKeys, List.map_map]
      rfl]
  rw [List.nodup_append]
  refine ⟨?_, ?_, ?_⟩
  · rw [List.nodup_cons, List.nodup_cons, List.nodup_cons]
    refine ⟨?_, ?_, ?_, List.nodup_singleton _⟩
    · intro hm
      rcases List.mem_cons.mp hm with h | hm
      · exact function_key_ne_host n h.symm
      rcases List.mem_cons.mp hm with h | hm
      · exact index_key_ne_host n h.symm
      · exact handler_key_ne_host n (List.mem_singleton.mp hm).symm
    · intro hm
      rcases List.mem_cons.mp hm with h | hm
      · exact index_key_ne_function n h.symm
      · exact handler_key_ne_function n (List.mem_singleton.mp hm).symm
    · intro hm
      exact handler_key_ne_index n (List.mem_singleton.mp hm).symm
  · refine List.Nodup.map_on ?_ hnd
    intro x hx y hy hxy
    exact key_inj hxy
  · intro a ha hb
    rcases List.mem_map.mp hb with ⟨p, hp, hkey⟩
    subst hkey
    exact hkeys p hp (by
      rw [show objKeys [("host.json", Asset.stringAsset hostJson.stringify),
          (n ++ "/function.json", Asset.stringAsset (functionJson bindings).stringify),
          (n ++ "/index.js", Asset.stringAsset indexJsStub),
          (n ++ "/handler.js", Asset.stringAsset txt)] =
        ["host.json", n ++ "/function.json", n ++ "/index.js", n ++ "/handler.js"] from rfl]
      exact ha)

/-- Counterexample for claim C5: with the included-path set containing
`function.json`, the per-path entry overwrites the binding manifest
(JavaScript object assignment), so the built map no longer holds the
manifest with the given bindings — the claim fails for this
included-path set. -/
theorem buildAssetMap_collision_cex :
    objGet (buildAssetMap "f" [{ type := "blobTrigger", direction := "in", name := "blob" }]
        "code" ["function.json"] (fun _ => false)) ("f" ++ "/function.json") =
      some (.fileAsset "function.json") ∧
    Asset.fileAsset "function.json" ≠
      Asset.stringAsset
        (functionJson [{ type := "blobTrigger", direction := "in", name := "blob" }]).stringify := by
  constructor
  · rfl
  · intro h
    cases h

/-- Witness for claim C5: the completeness property evaluated on a
concrete function name, binding, handler text and one included path. -/
theorem buildAssetMap_complete_witness :
    (¬ "function.json" ∈ (["node_modules/lodash"] : List String)) ∧
    (¬ "index.js" ∈ (["node_modules/lodash"] : List String)) ∧
    (¬ "handler.js" ∈ (["node_modules/lodash"] : List String)) ∧
    (["node_modules/lodash"] : List String).Nodup ∧
    buildAssetMap "fn" [{ type := "blobTrigger", direction := "in", name := "blob" }] "T"
        ["node_modules/lodash"] (fun _ => true) =
      specAssetMap "fn" [{ type := "blobTrigger", direction := "in", name := "blob" }] "T"
        ["node_modules/lodash"] (fun _ => true) ∧
    (objKeys (buildAssetMap "fn" [{ type := "blobTrigger", direction := "in", name := "blob" }]
        "T" ["node_modules/lodash"] (fun _ => true))).Nodup := by
  have h := buildAssetMap_complete "fn"
    [{ type := "blobTrigger", direction := "in", name := "blob" }] "T"
    ["node_modules/lodash"] (fun _ => true) (by decide) (by decide) (by decide) (by decide)
  exact ⟨by decide, by decide, by decide, by decide, h.1, h.2⟩
